import Mathlib

/-!
# Verification of the concrete-bytecode layer of `bytecode` (`bytecode/concrete.py`)

A shallow embedding of `bytecode/concrete.py`: concrete instructions with
variable-width (`wordcode`, Python >= 3.6) and fixed-width (Python < 3.6)
encodings, instruction-size computation, full-container assembly
(`ConcreteBytecode.to_code`), the line-number table (`_assemble_lnotab`),
decoding (`ConcreteBytecode.from_code`) including the `EXTENDED_ARG` merging
post-pass, the jump-layout fixed point (`_ConvertBytecodeToConcrete`), and
constant-pool deduplication (`add_const`).

Machine integers are modelled as `Nat`/`Int`; byte sequences as `List Nat`
with every element `< 256`; Python exceptions as `Except String`.
Helpers from `bytecode/instr.py` and `bytecode/__init__.py` (`const_key`,
`_check_arg_int`, `BaseBytecode.__eq__`) are not part of the sources being
verified and are modelled from the specification where needed; each such
definition says so in its doc comment.
-/

namespace BytecodeSpec

/-! ## Python values and `const_key`

Only the fragment of Python's value universe that the claims exercise is
modelled: `None`, booleans, integers and strings. -/

/-- A Python constant value (the fragment needed by the constant pool). -/
inductive PyVal where
  | none : PyVal
  | bool (b : Bool) : PyVal
  | int (n : Int) : PyVal
  | str (s : String) : PyVal
  deriving DecidableEq, Repr

/-- Numeric view of a Python value: Python's `==` identifies `True` with `1`,
`False` with `0`, and compares integers by value. -/
def PyVal.toNum : PyVal → Option Int
  | .bool b => some (if b then 1 else 0)
  | .int n => some n
  | _ => Option.none

/-- Python's naive `==` on the modelled value fragment: numeric values compare
by numeric value (so `True == 1`), everything else structurally. -/
def pyEq (v w : PyVal) : Bool :=
  match v.toNum, w.toNum with
  | some a, some b => a = b
  | _, _ => v = w

/-- Type tag of a Python value, standing for Python's `type(value)`. -/
def typeTag : PyVal → Nat
  | .none => 0
  | .bool _ => 1
  | .int _ => 2
  | .str _ => 3

/-- Modelled from the spec: `const_key` lives in `bytecode/instr.py`, which is
not among the sources; the spec requires "a (type-tag, value) composite, never
a bare value comparison", and `to_concrete_bytecode` relies on
`const_key(value)[1]` being `value`. -/
def const_key (v : PyVal) : Nat × PyVal := (typeTag v, v)

/-! ## Opcode constants (`opcode` module, CPython 3.x) -/

/-- `opcode.HAVE_ARGUMENT`: opcodes `>= 90` take an argument. -/
def HAVE_ARGUMENT : Nat := 90

/-- `opcode.EXTENDED_ARG` (CPython 3.5/3.6). -/
def EXTENDED_ARG : Nat := 144

/-- `opcode.hasjrel` (CPython 3.6): opcodes whose argument is a jump relative
to the end of the instruction. -/
def hasjrel : List Nat := [93, 110, 120, 121, 122, 143]

/-- Upper bound accepted for an instruction argument: `_check_arg_int`
requires `0 <= arg <= 2147483647` (the class docstring of `ConcreteInstr`
states this range). -/
def ARG_MAX : Nat := 2147483647

/-! ## Concrete instructions -/

/-- `ConcreteInstr`: an opcode, an optional integer operand (`none` is
Python's `UNSET`) and an optional line number. The `name` attribute of the
Python object is in bijection with the opcode and is not carried
separately. -/
structure ConcreteInstr where
  opcode : Nat
  arg : Option Nat
  lineno : Option Int
  deriving DecidableEq, Repr

/-- The construction checks of `ConcreteInstr.__init__`:
`_check_arg` requires the operand to be present exactly when
`opcode >= HAVE_ARGUMENT`, and `_check_arg_int` (modelled from the spec and
the class docstring: operand in `0..2147483647`) bounds it; the opcode must
name a real instruction, hence fit in a byte. -/
def instrWF (i : ConcreteInstr) : Bool :=
  i.opcode < 256 &&
    match i.arg with
    | some a => decide (HAVE_ARGUMENT ≤ i.opcode) && decide (a ≤ ARG_MAX)
    | none => decide (i.opcode < HAVE_ARGUMENT)

/-- Constructor `ConcreteInstr(name, arg, lineno=...)`: returns the
instruction or raises (`ValueError`) when the checks fail. -/
def mkConcreteInstr (opcode : Nat) (arg : Option Nat) (lineno : Option Int) :
    Except String ConcreteInstr :=
  let i : ConcreteInstr := ⟨opcode, arg, lineno⟩
  if instrWF i then .ok i else .error "invalid instruction argument"

/-! ## Instruction size (`ConcreteInstr._set`) -/

/-- Number of extension words needed for operand `a` in the variable-width
regime: the number of iterations of `while arg > 0xff: arg >>= 8`. -/
def extIter (a : Nat) : Nat :=
  if a ≤ 255 then 0 else 1 + extIter (a / 256)
  decreasing_by exact Nat.div_lt_self (by omega) (by omega)

/-- The size loop of `ConcreteInstr._set` in the variable-width regime:
`while arg > 0xff: size += 2; arg >>= 8`, starting from accumulator
`size`. -/
def sizeLoop (size a : Nat) : Nat :=
  if a ≤ 255 then size else sizeLoop (size + 2) (a / 256)
  decreasing_by exact Nat.div_lt_self (by omega) (by omega)

/-- `ConcreteInstr.size` in the variable-width (`_WORDCODE`) regime. -/
def instrSizeW (arg : Option Nat) : Nat :=
  match arg with
  | none => 2
  | some a => sizeLoop 2 a

/-- `ConcreteInstr.size` in the fixed-width (pre-3.6) regime: 1 byte with no
operand, 3 bytes for an operand `<= 0xffff`, 6 bytes otherwise. -/
def instrSizeF (arg : Option Nat) : Nat :=
  match arg with
  | none => 1
  | some a => if a > 65535 then 6 else 3

/-- Size of an instruction, by regime (`w = true` is the variable-width
`_WORDCODE` regime). -/
def instrSize (w : Bool) (i : ConcreteInstr) : Nat :=
  if w then instrSizeW i.arg else instrSizeF i.arg

/-! ## Instruction assembly (`ConcreteInstr.assemble`) -/

/-- The extension-prefix bytes prepended by the loop
`while arg > 0xff: arg >>= 8; b[:0] = [EXTENDED_ARG, arg & 0xff]`:
most-significant extension first. -/
def extBytes (a : Nat) : List Nat :=
  if a ≤ 255 then [] else extBytes (a / 256) ++ [EXTENDED_ARG, a / 256 % 256]
  decreasing_by exact Nat.div_lt_self (by omega) (by omega)

/-- `ConcreteInstr.assemble` in the variable-width regime. -/
def assembleW (opcode : Nat) (arg : Option Nat) : List Nat :=
  match arg with
  | none => [opcode, 0]
  | some a => extBytes a ++ [opcode, a % 256]

/-- `ConcreteInstr.assemble` in the fixed-width regime
(`struct.pack('<B'| '<BH' | '<BHBH', ...)`, little-endian 16-bit words). -/
def assembleF (opcode : Nat) (arg : Option Nat) : List Nat :=
  match arg with
  | none => [opcode]
  | some a =>
    if a > 65535 then
      [EXTENDED_ARG, a / 65536 % 256, a / 65536 / 256 % 256,
       opcode, a % 256, a / 256 % 256]
    else
      [opcode, a % 256, a / 256]

/-- Instruction assembly, by regime. -/
def instrAssemble (w : Bool) (i : ConcreteInstr) : List Nat :=
  if w then assembleW i.opcode i.arg else assembleF i.opcode i.arg

/-! ## The concrete container (`ConcreteBytecode`) -/

/-- `struct.pack('b', d)` for `-128 <= d <= 127`: the byte is `d mod 256`. -/
def signedByte (d : Int) : Nat := (d % 256).toNat

/-- The bytes emitted for one `(doff, dlineno)` entry of the line-number
table: the three `while` loops of `_assemble_lnotab` (offset deltas over 255
first, then line deltas below `-127`, then above `126`), followed by the
final `struct.pack('Bb', doff, dlineno)`. -/
def entryBytes (doff : Nat) (dl : Int) : List Nat :=
  if 255 < doff then 255 :: 0 :: entryBytes (doff - 255) dl
  else if dl < -127 then 0 :: 129 :: entryBytes doff (dl + 127)
  else if 126 < dl then 0 :: 126 :: entryBytes doff (dl - 126)
  else [doff, signedByte dl]
  termination_by doff + dl.natAbs
  decreasing_by all_goals omega

/-- The fold of `_assemble_lnotab` over the `(offset, lineno)` pairs,
carrying `old_offset` and `old_lineno`; entries whose line delta is zero are
skipped and do not advance `old_offset`. -/
def assembleLnotabAux (oldOff : Nat) (oldLine : Int) :
    List (Nat × Int) → List Nat
  | [] => []
  | (off, l) :: rest =>
    if l = oldLine then assembleLnotabAux oldOff oldLine rest
    else entryBytes (off - oldOff) (l - oldLine) ++ assembleLnotabAux off l rest

/-- `ConcreteBytecode._assemble_lnotab`. -/
def assembleLnotab (firstLineno : Int) (linenos : List (Nat × Int)) : List Nat :=
  assembleLnotabAux 0 firstLineno linenos

/-! ## The code object (`types.CodeType`) -/

/-- The decode loop of `from_code`: at each offset, update the current line
from the `line_starts` table, read one instruction
(`ConcreteInstr.disassemble`) and advance by its size. In the variable-width
regime every decoded unit is `(opcode, arg-byte)`, 2 bytes; an odd trailing
byte makes `code[offset + 1]` an out-of-range access (`.error`). -/
def disasmW (ls : List (Nat × Int)) (lineno : Int) (offset : Nat) :
    List Nat → Except String (List ConcreteInstr)
  | [] => .ok []
  | [_] => .error "index out of range"
  | op :: b :: rest => do
    let lineno := ((ls.lookup offset).getD lineno)
    let i : ConcreteInstr :=
      ⟨op, if HAVE_ARGUMENT ≤ op then some b else Option.none, some lineno⟩
    let tail ← disasmW ls lineno (offset + 2) rest
    return i :: tail

/-- The `EXTENDED_ARG` merging post-pass of `from_code` (the
`if not extended_arg:` block), parametrised by the regime `w`
(`_WORDCODE`), carrying the pending accumulated extension value.
A pending extension followed by another `EXTENDED_ARG` is merged in the
variable-width regime and is a fatal error in the fixed-width regime; a
pending extension at the end of the stream is a fatal error. A merged
instruction is rebuilt through the checked constructor (so an accumulated
argument beyond `ARG_MAX`, or a pending extension before an argument-less
instruction, also raises). -/
def mergeExt (w : Bool) (pending : Option Nat) :
    List ConcreteInstr → Except String (List ConcreteInstr)
  | [] =>
    match pending with
    | some _ => .error "EXTENDED_ARG at the end of the code"
    | none => .ok []
  | i :: rest =>
    if i.opcode = EXTENDED_ARG then
      match pending with
      | some e =>
        if w then mergeExt w (some (e * 256 + i.arg.getD 0)) rest
        else .error "EXTENDED_ARG followed by EXTENDED_ARG"
      | none => mergeExt w (some (i.arg.getD 0)) rest
    else
      match pending with
      | some e => do
        let a ←
          match i.arg with
          | some b => .ok (if w then e * 256 + b else e * 65536 + b)
          | none => .error "unsupported operand type"
        let i' ← mkConcreteInstr i.opcode (some a) i.lineno
        let tail ← mergeExt w Option.none rest
        return i' :: tail
      | none => do
        let tail ← mergeExt w Option.none rest
        return i :: tail

/-- The mutable layout state of `_ConvertBytecodeToConcrete` once
`concrete_instructions()` has run: the queued concrete instructions, the
`jumps` list of `(instruction index, label)` pairs (the aliased `instr` of
the Python tuple is `instructions[index]`), and the label → instruction
index map. Jump instructions carry the placeholder argument `0` until
resolved. The variable-width regime is used for sizes. -/
structure LayoutState where
  instructions : List ConcreteInstr
  jumps : List (Nat × Nat)
  labels : List (Nat × Nat)
  deriving DecidableEq, Repr

/-- The offset table of `compute_jumps`: `offsets[i]` is the byte offset of
instruction `i`, with one extra entry at the end ("needed if a label is at
the end"). -/
def computeOffsets (offset : Nat) : List ConcreteInstr → List Nat
  | [] => [offset]
  | i :: rest => offset :: computeOffsets (offset + instrSizeW i.arg) rest

/-- The argument setter `instr.arg = target_offset`: `Instr._set` re-runs
`_check_arg` on the new value, so a negative target or one beyond `ARG_MAX`
raises; on success the size is recomputed from the new argument. -/
def setArg (i : ConcreteInstr) (v : Int) : Except String ConcreteInstr :=
  if 0 ≤ v ∧ v ≤ (ARG_MAX : Int) then .ok { i with arg := some v.toNat }
  else .error "invalid instruction argument"

/-- The resolution loop of `compute_jumps` over the `jumps` list: look the
label up, take its offset, subtract `instr_offset + size` for a relative
jump, store the argument (which may raise), and record whether any
instruction's size changed. `offsets` stays fixed for the whole pass, as in
the source, while `instructions` is updated in place. -/
def computeJumpsLoop (offsets : List Nat) (labels : List (Nat × Nat)) :
    List ConcreteInstr → Bool → List (Nat × Nat) →
    Except String (List ConcreteInstr × Bool)
  | instrs, modified, [] => .ok (instrs, modified)
  | instrs, modified, (index, label) :: rest => do
    let targetIndex ←
      match labels.lookup label with
      | some t => .ok t
      | none => .error "unresolved label"
    let targetOffset ←
      match offsets.get? targetIndex with
      | some o => .ok o
      | none => .error "label index out of range"
    let instr ←
      match instrs.get? index with
      | some i => .ok i
      | none => .error "jump index out of range"
    let instrOffset ←
      match offsets.get? index with
      | some o => .ok o
      | none => .error "jump index out of range"
    let target : Int :=
      if instr.opcode ∈ hasjrel then
        (targetOffset : Int) - ((instrOffset : Int) + (instrSizeW instr.arg : Int))
      else (targetOffset : Int)
    let instr' ← setArg instr target
    let modified := modified || decide (instrSizeW instr'.arg ≠ instrSizeW instr.arg)
    computeJumpsLoop offsets labels (instrs.set index instr') modified rest

/-- `_ConvertBytecodeToConcrete.compute_jumps`: one resolution pass. -/
def computeJumps (st : LayoutState) : Except String (LayoutState × Bool) := do
  let offsets := computeOffsets 0 st.instructions
  let (instrs, modified) ← computeJumpsLoop offsets st.labels st.instructions false st.jumps
  return ({ st with instructions := instrs }, modified)

/-- The fixed-point driver in `to_concrete_bytecode`:
`modified = self.compute_jumps(); if modified: modified = self.compute_jumps();
if modified: raise RuntimeError(...)`. -/
def computeJumpsFix (st : LayoutState) : Except String LayoutState := do
  let (st1, m1) ← computeJumps st
  if m1 then
    let (st2, m2) ← computeJumps st1
    if m2 then
      .error "compute_jumps() must not modify jumps at the second iteration"
    else
      return st2
  else
    return st1

/-- Unbounded reference iterator for the same pass: keeps resolving until a
pass reports no size change (used to state that the driver never runs a
third pass). -/
def computeJumpsIter (st : LayoutState) : Nat → Except String (LayoutState × Bool)
  | 0 => .ok (st, true)
  | n + 1 => do
    let (st', m) ← computeJumps st
    if m then computeJumpsIter st' n else return (st', false)

/-! ## Constant-pool deduplication (`add_const`) -/

/-- `_ConvertBytecodeToConcrete.add_const`: the `consts` dict keyed by
`const_key`, with `index = len(self.consts)` for a fresh key; an existing
key returns its first-seen index and leaves the pool unchanged. The
insertion-ordered dict is an association list. -/
def addConst (consts : List ((Nat × PyVal) × Nat)) (value : PyVal) :
    Nat × List ((Nat × PyVal) × Nat) :=
  let key := const_key value
  match consts.lookup key with
  | some index => (index, consts)
  | none => (consts.length, consts ++ [(key, consts.length)])

/-! ## Container element check (`ConcreteBytecode.__iter__`) -/

/-- An element actually stored in the Python list underlying a
`ConcreteBytecode` (the list itself accepts anything): a concrete
instruction, a `SetLineno`, or an abstract `Instr` (from
`bytecode/instr.py`, outside the sources; modelled from the spec as a named
instruction with a symbolic operand and no fixed encoding). -/
inductive CBEntry where
  | concrete (i : ConcreteInstr) : CBEntry
  | setLineno (l : Int) : CBEntry
  | abstractInstr (name : String) (lineno : Option Int) : CBEntry
  deriving DecidableEq, Repr

/-- `isinstance(instr, (ConcreteInstr, SetLineno))`. -/
def entryAllowed : CBEntry → Bool
  | .concrete _ => true
  | .setLineno _ => true
  | .abstractInstr _ _ => false

/-- `ConcreteBytecode.__iter__`: yield the elements in order, raising
`ValueError` at the first element that is not a `ConcreteInstr` or a
`SetLineno`. -/
def iterChecked : List CBEntry → Except String (List CBEntry)
  | [] => .ok []
  | e :: rest =>
    if entryAllowed e then do
      let tail ← iterChecked rest
      return e :: tail
    else
      .error "ConcreteBytecode must only contain ConcreteInstr and SetLineno objects"

/-! ## Proof-side definitions

Derived notions used to state and prove the claims; none of these add
behaviour beyond `bytecode/concrete.py`, they only name structure of the
functions above. -/

/-- Decode a raw byte stream and run the extension-merging post-pass
(variable-width regime, no line-start table, first line 1): the composition
exercised by the concrete decode scenarios. -/
def decodeMergeW (code : List Nat) : Except String (List ConcreteInstr) :=
  disasmW [] 1 0 code >>= mergeExt true Option.none

/-- Layout state of concrete scenario 4: five argument-less instructions
(bytes 0..9), then a relative jump (`JUMP_FORWARD`, opcode 110) at byte
offset 10 of size 2, whose label resolves to instruction index 4, byte
offset 8. -/
def negJumpState : LayoutState :=
  { instructions := [⟨9, Option.none, some 1⟩, ⟨9, Option.none, some 1⟩,
                     ⟨9, Option.none, some 1⟩, ⟨9, Option.none, some 1⟩,
                     ⟨9, Option.none, some 1⟩, ⟨110, some 0, some 1⟩],
    jumps := [(5, 0)], labels := [(0, 4)] }

/-- Layout state whose first resolution pass grows the jump instruction
(target 258 bytes away needs an extension word) and whose second pass is
stable: a relative jump followed by 32 eight-byte instructions, the label at
the end. -/
def growJumpState : LayoutState :=
  { instructions := ⟨110, some 0, some 1⟩ ::
      List.replicate 32 ⟨100, some 2147483647, some 1⟩,
    jumps := [(0, 7)], labels := [(7, 33)] }

/-- `growJumpState` after resolution: the jump operand is 256 (offset 258 of
the label minus the jump's end `0 + 2` on the first pass, and `260 - 4` on
the stable second pass). -/
def growJumpStateResolved : LayoutState :=
  { instructions := ⟨110, some 256, some 1⟩ ::
      List.replicate 32 ⟨100, some 2147483647, some 1⟩,
    jumps := [(0, 7)], labels := [(7, 33)] }

/-! # Theorems

First the supporting lemmas, then one theorem per claim (with its witness or
counterexample). -/

/-! ## Size and assembly lemmas -/

theorem extIter_of_le {a : Nat} (h : a ≤ 255) : extIter a = 0 := by
  rw [extIter]; simp [h]

theorem extIter_of_gt {a : Nat} (h : 255 < a) : extIter a = 1 + extIter (a / 256) := by
  rw [extIter]; simp [Nat.not_le.mpr h]

theorem sizeLoop_eq (s a : Nat) : sizeLoop s a = s + 2 * extIter a := by
  induction a using Nat.strong_induction_on generalizing s with
  | _ a ih =>
    rw [sizeLoop]
    by_cases h : a ≤ 255
    · rw [extIter_of_le h]; simp [h]
    · rw [extIter_of_gt (Nat.not_le.mp h)]
      simp only [if_neg h]
      rw [ih (a / 256) (Nat.div_lt_self (by omega) (by omega)) (s + 2)]
      ring

theorem instrSizeW_some (a : Nat) : instrSizeW (some a) = 2 + 2 * extIter a :=
  sizeLoop_eq 2 a

theorem extIter_mono {a b : Nat} (h : a ≤ b) : extIter a ≤ extIter b := by
  induction b using Nat.strong_induction_on generalizing a with
  | _ b ih =>
    by_cases hb : b ≤ 255
    · rw [extIter_of_le (le_trans h hb), extIter_of_le hb]
    · by_cases ha : a ≤ 255
      · rw [extIter_of_le ha]; exact Nat.zero_le _
      · rw [extIter_of_gt (Nat.not_le.mp ha), extIter_of_gt (Nat.not_le.mp hb)]
        have := ih (b / 256) (Nat.div_lt_self (by omega) (by omega))
          (Nat.div_le_div_right h)
        omega

theorem instrSizeW_mono {a b : Nat} (h : a ≤ b) :
    instrSizeW (some a) ≤ instrSizeW (some b) := by
  rw [instrSizeW_some, instrSizeW_some]
  have := extIter_mono h
  omega

theorem extBytes_length (a : Nat) : (extBytes a).length = 2 * extIter a := by
  induction a using Nat.strong_induction_on with
  | _ a ih =>
    rw [extBytes]
    by_cases h : a ≤ 255
    · rw [extIter_of_le h]; simp [h]
    · rw [extIter_of_gt (Nat.not_le.mp h)]
      simp only [if_neg h, List.length_append]
      rw [ih (a / 256) (Nat.div_lt_self (by omega) (by omega))]
      simp; ring

/-- **C3**: in the variable-width regime, the computed size is 2 bytes when
the operand is absent and otherwise `2 + 2·(number of right-shifts by 8 bits
while the operand still exceeds 0xFF)`; the size is a non-decreasing
function of the operand, and in particular
`size(opcode, operand) ≤ size(opcode, operand + 256)`. -/
theorem claim_C3_instr_size (i : ConcreteInstr) :
    (i.arg = Option.none → instrSize true i = 2) ∧
    (∀ a, i.arg = some a → instrSize true i = 2 + 2 * extIter a) ∧
    (∀ a b : Nat, a ≤ b → instrSizeW (some a) ≤ instrSizeW (some b)) ∧
    (∀ a : Nat, instrSizeW (some a) ≤ instrSizeW (some (a + 256))) := by
  refine ⟨fun h => ?_, fun a h => ?_, fun a b h => instrSizeW_mono h,
    fun a => instrSizeW_mono (by omega)⟩
  · simp [instrSize, h, instrSizeW]
  · simp [instrSize, h, instrSizeW_some]

/-- Witness for C3: an argument-less instruction has size 2; operand 300
needs one shift, so size 4; and the size at 300 is bounded by the sizes at
301 and 556. -/
theorem claim_C3_instr_size_witness :
    instrSize true ⟨9, Option.none, some 1⟩ = 2 ∧
    instrSize true ⟨100, some 300, some 1⟩ = 2 + 2 * extIter 300 ∧
    instrSizeW (some 300) ≤ instrSizeW (some 301) ∧
    instrSizeW (some 300) ≤ instrSizeW (some (300 + 256)) :=
  ⟨(claim_C3_instr_size ⟨9, Option.none, some 1⟩).1 rfl,
   (claim_C3_instr_size ⟨100, some 300, some 1⟩).2.1 300 rfl,
   (claim_C3_instr_size ⟨100, some 300, some 1⟩).2.2.1 300 301 (by omega),
   (claim_C3_instr_size ⟨100, some 300, some 1⟩).2.2.2 300⟩

/-- **C10**: in both regimes, the byte string produced by `assemble()` has
exactly the length reported by the instruction's `size` attribute. -/
theorem claim_C10_assemble_length (w : Bool) (i : ConcreteInstr) :
    (instrAssemble w i).length = instrSize w i := by
  cases w with
  | true =>
    cases h : i.arg with
    | none => simp [instrAssemble, assembleW, h, instrSize, instrSizeW]
    | some a =>
      simp only [instrAssemble, assembleW, h, instrSize, if_true,
        List.length_append, extBytes_length, instrSizeW_some]
      simp; ring
  | false =>
    cases h : i.arg with
    | none => simp [instrAssemble, assembleF, h, instrSize, instrSizeF]
    | some a =>
      by_cases hb : a > 65535 <;>
        simp [instrAssemble, assembleF, h, instrSize, instrSizeF, hb]

/-- **C6**: during the extension-merging post-pass, a trailing extension
prefix (end of stream) is a fatal decode error in both regimes; a second
consecutive extension prefix while one is pending is a fatal decode error
in the fixed-width regime, and in the variable-width regime merges into the
pending value shifted left 8 bits plus the new prefix's operand. -/
theorem claim_C6_extension_merging :
    (∀ (w : Bool) (b : Nat) (ln : Option Int),
      mergeExt w Option.none [⟨EXTENDED_ARG, some b, ln⟩] =
        .error "EXTENDED_ARG at the end of the code") ∧
    (∀ (w : Bool) (p : Nat),
      mergeExt w (some p) [] = .error "EXTENDED_ARG at the end of the code") ∧
    (∀ (p b : Nat) (ln : Option Int) (rest : List ConcreteInstr),
      mergeExt false (some p) (⟨EXTENDED_ARG, some b, ln⟩ :: rest) =
        .error "EXTENDED_ARG followed by EXTENDED_ARG") ∧
    (∀ (p b : Nat) (ln : Option Int) (rest : List ConcreteInstr),
      mergeExt true (some p) (⟨EXTENDED_ARG, some b, ln⟩ :: rest) =
        mergeExt true (some (p * 256 + b)) rest) :=
  ⟨fun _ _ _ => rfl, fun _ _ => rfl, fun _ _ _ _ => rfl, fun _ _ _ _ => rfl⟩

/-! ## Line-number table lemmas -/

theorem entryBytes_doff_split {doff : Nat} (dl : Int) (h : 255 < doff) :
    entryBytes doff dl = 255 :: 0 :: entryBytes (doff - 255) dl := by
  rw [entryBytes]; simp [h]

theorem entryBytes_neg_split {doff : Nat} {dl : Int} (h : doff ≤ 255)
    (hdl : dl < -127) :
    entryBytes doff dl = 0 :: 129 :: entryBytes doff (dl + 127) := by
  rw [entryBytes]; simp [Nat.not_lt.mpr h, hdl]

theorem entryBytes_pos_split {doff : Nat} {dl : Int} (h : doff ≤ 255)
    (_h1 : -127 ≤ dl) (h2 : 126 < dl) :
    entryBytes doff dl = 0 :: 126 :: entryBytes doff (dl - 126) := by
  rw [entryBytes, if_neg (by omega : ¬255 < doff), if_neg (by omega : ¬dl < -127),
    if_pos h2]

theorem entryBytes_base {doff : Nat} {dl : Int} (h : doff ≤ 255)
    (h1 : -127 ≤ dl) (h2 : dl ≤ 126) :
    entryBytes doff dl = [doff, signedByte dl] := by
  rw [entryBytes, if_neg (by omega : ¬255 < doff), if_neg (by omega : ¬dl < -127),
    if_neg (by omega : ¬(126 : Int) < dl)]

/-- **C5**: the assembled line-number table omits zero line-delta entries;
an offset delta over 255 is split off as a `(255, 0)` pair; a line delta
below −127 (resp. above 126) is split off as a `(0, −127)` (resp.
`(0, 126)`) pair, `−127` encoding as byte `129`; deltas in range emit the
single packed pair; and for a line jump from 10 to 140 at byte offset 0 the
table is exactly the pairs `(0, 126)` then `(0, 4)`. -/
theorem claim_C5_lnotab :
    (∀ (oldOff : Nat) (oldLine : Int) (off : Nat) (rest : List (Nat × Int)),
      assembleLnotabAux oldOff oldLine ((off, oldLine) :: rest) =
        assembleLnotabAux oldOff oldLine rest) ∧
    (∀ (doff : Nat) (dl : Int), 255 < doff →
      entryBytes doff dl = 255 :: 0 :: entryBytes (doff - 255) dl) ∧
    (∀ (doff : Nat) (dl : Int), doff ≤ 255 → dl < -127 →
      entryBytes doff dl = 0 :: 129 :: entryBytes doff (dl + 127)) ∧
    (∀ (doff : Nat) (dl : Int), doff ≤ 255 → -127 ≤ dl → 126 < dl →
      entryBytes doff dl = 0 :: 126 :: entryBytes doff (dl - 126)) ∧
    (∀ (doff : Nat) (dl : Int), doff ≤ 255 → -127 ≤ dl → dl ≤ 126 →
      entryBytes doff dl = [doff, signedByte dl]) ∧
    assembleLnotab 10 [(0, 140)] = [0, 126, 0, 4] := by
  refine ⟨fun oldOff oldLine off rest => by rw [assembleLnotabAux]; simp,
    fun doff dl h => entryBytes_doff_split dl h,
    fun doff dl h hdl => entryBytes_neg_split h hdl,
    fun doff dl h h1 h2 => entryBytes_pos_split h h1 h2,
    fun doff dl h h1 h2 => entryBytes_base h h1 h2, ?_⟩
  rw [assembleLnotab, assembleLnotabAux, if_neg (by norm_num : ¬(140 : Int) = 10)]
  norm_num
  rw [entryBytes_pos_split (by norm_num) (by norm_num) (by norm_num),
    entryBytes_base (by norm_num) (by norm_num) (by norm_num)]
  rw [assembleLnotabAux]
  simp [signedByte]

/-! ## Constant-pool lemmas -/

theorem lookup_append {α β : Type} [BEq α] (l l' : List (α × β)) (k : α) :
    (l ++ l').lookup k = (l.lookup k).or (l'.lookup k) := by
  induction l with
  | nil => simp [List.lookup]
  | cons p l ih =>
    rw [List.cons_append, List.lookup, List.lookup]
    cases h : k == p.1 with
    | true => simp
    | false => simpa using ih

theorem lookup_singleton_self {β : Type} (k : Nat × PyVal) (v : β) :
    List.lookup k [(k, v)] = some v := by
  simp [List.lookup]

/-- Witness for C5: the split equations instantiated at concrete deltas, and
the zero-delta omission at a concrete list. -/
theorem claim_C5_lnotab_witness :
    assembleLnotabAux 0 7 [(4, 7)] = assembleLnotabAux 0 7 [] ∧
    entryBytes 300 5 = 255 :: 0 :: entryBytes 45 5 ∧
    entryBytes 3 (-200) = 0 :: 129 :: entryBytes 3 (-73) ∧
    entryBytes 0 130 = 0 :: 126 :: entryBytes 0 4 ∧
    entryBytes 3 (-73) = [3, signedByte (-73)] :=
  ⟨claim_C5_lnotab.1 0 7 4 [],
   claim_C5_lnotab.2.1 300 5 (by norm_num),
   claim_C5_lnotab.2.2.1 3 (-200) (by norm_num) (by norm_num),
   claim_C5_lnotab.2.2.2.1 0 130 (by norm_num) (by norm_num) (by norm_num),
   claim_C5_lnotab.2.2.2.2.1 3 (-73) (by norm_num) (by norm_num) (by norm_num)⟩

/-- **C8**: `add_const` deduplicates by the type-sensitive `const_key`:
re-adding a value returns the first-seen index and leaves the pool
unchanged, while two values with distinct keys — even if equal under
Python's naive `==`, like `True` and `1` — receive distinct pool slots. -/
theorem claim_C8_const_dedup :
    (∀ (s : List ((Nat × PyVal) × Nat)) (v : PyVal),
      addConst (addConst s v).2 v = addConst s v) ∧
    pyEq (PyVal.bool true) (PyVal.int 1) = true ∧
    (∀ (s : List ((Nat × PyVal) × Nat)) (v w : PyVal),
      s.lookup (const_key v) = Option.none →
      s.lookup (const_key w) = Option.none →
      const_key v ≠ const_key w →
      (addConst s v).1 ≠ (addConst (addConst s v).2 w).1 ∧
      (addConst (addConst s v).2 w).2.length = s.length + 2) := by
  refine ⟨fun s v => ?_, by decide, fun s v w hv hw hne => ?_⟩
  · cases h : s.lookup (const_key v) with
    | some i => simp [addConst, h]
    | none =>
      have h1 : addConst s v = (s.length, s ++ [(const_key v, s.length)]) := by
        simp [addConst, h]
      have h2 : (s ++ [(const_key v, s.length)]).lookup (const_key v) =
          some s.length := by
        rw [lookup_append, h, Option.none_or, lookup_singleton_self]
      rw [h1]
      simp [addConst, h2]
  · have h1 : addConst s v = (s.length, s ++ [(const_key v, s.length)]) := by
      simp [addConst, hv]
    have hbeq : (const_key w == const_key v) = false :=
      beq_eq_false_iff_ne.mpr (Ne.symm hne)
    have hlw : (s ++ [(const_key v, s.length)]).lookup (const_key w) =
        Option.none := by
      rw [lookup_append, hw, Option.none_or]
      simp [List.lookup, hbeq]
    rw [h1]
    simp only [addConst, hlw]
    simp

/-- Witness for C8: over an empty pool, `True` and `1` compare equal under
naive `==` yet occupy pool slots 0 and 1, and the pool has grown to two
entries. -/
theorem claim_C8_const_dedup_witness :
    pyEq (PyVal.bool true) (PyVal.int 1) = true ∧
    (addConst [] (PyVal.bool true)).1 ≠
      (addConst (addConst [] (PyVal.bool true)).2 (PyVal.int 1)).1 ∧
    (addConst (addConst [] (PyVal.bool true)).2 (PyVal.int 1)).2.length = 0 + 2 :=
  ⟨claim_C8_const_dedup.2.1,
   (claim_C8_const_dedup.2.2 [] (PyVal.bool true) (PyVal.int 1) rfl rfl
     (by decide)).1,
   (claim_C8_const_dedup.2.2 [] (PyVal.bool true) (PyVal.int 1) rfl rfl
     (by decide)).2⟩

/-- **C9**: iterating a concrete container raises a `ValueError` at the
first element that is neither a `ConcreteInstr` nor a `SetLineno` — the
error depends only on the elements up to the offender, not on anything
later (in particular not on assembly); a container of only allowed elements
iterates unchanged. -/
theorem claim_C9_iter_type_check :
    (∀ (l : List CBEntry), (∀ e ∈ l, entryAllowed e = true) →
      iterChecked l = .ok l) ∧
    (∀ (pre : List CBEntry) (x : CBEntry) (post : List CBEntry),
      (∀ e ∈ pre, entryAllowed e = true) → entryAllowed x = false →
      iterChecked (pre ++ x :: post) =
        .error "ConcreteBytecode must only contain ConcreteInstr and SetLineno objects") := by
  constructor
  · intro l h
    induction l with
    | nil => rfl
    | cons e rest ih =>
      rw [iterChecked, if_pos (h e (by simp))]
      rw [ih fun e' he' => h e' (by simp [he'])]
      rfl
  · intro pre x post hpre hx
    induction pre with
    | nil => rw [List.nil_append, iterChecked, if_neg (by simp [hx])]
    | cons e rest ih =>
      rw [List.cons_append, iterChecked, if_pos (hpre e (by simp))]
      rw [ih fun e' he' => hpre e' (by simp [he'])]
      rfl

/-- Witness for C9: a container holding a concrete instruction, an abstract
instruction and a line marker errors on iteration; without the abstract
instruction it iterates unchanged. -/
theorem claim_C9_iter_type_check_witness :
    iterChecked [.concrete ⟨9, Option.none, Option.none⟩,
        .abstractInstr "LOAD_CONST" Option.none, .setLineno 3] =
      .error "ConcreteBytecode must only contain ConcreteInstr and SetLineno objects" ∧
    iterChecked [.concrete ⟨9, Option.none, Option.none⟩, .setLineno 3] =
      .ok [.concrete ⟨9, Option.none, Option.none⟩, .setLineno 3] :=
  ⟨claim_C9_iter_type_check.2 [.concrete ⟨9, Option.none, Option.none⟩]
      (.abstractInstr "LOAD_CONST" Option.none) [.setLineno 3]
      (by intro e he; simp at he; subst he; rfl) rfl,
   claim_C9_iter_type_check.1 _ (by intro e he; simp at he; rcases he with h | h <;> subst h <;> rfl)⟩

/-! ## Encode/decode scenario lemmas (claim C2) -/

theorem extBytes_300 : extBytes 300 = [EXTENDED_ARG, 1] := by
  rw [extBytes, if_neg (by norm_num)]
  norm_num
  rw [extBytes, if_pos (by norm_num)]

theorem instrSizeW_300 : instrSizeW (some 300) = 4 := by
  rw [instrSizeW_some, extIter_of_gt (by norm_num)]
  norm_num
  rw [extIter_of_le (by norm_num)]

/-- **C2 (counterexample)**: the claim quantifies over every opcode that
takes an argument, and the extension prefix `EXTENDED_ARG = 144` itself is
such an opcode (`144 ≥ 90`, well-formed with operand 300); its 4 assembled
bytes are `(EXTENDED_ARG, 1)(144, 44)`, but decoding them and merging
extensions is a fatal "trailing extension" error, not a single instruction
with operand 300. -/
theorem claim_C2_counterexample :
    instrWF ⟨EXTENDED_ARG, some 300, some 1⟩ = true ∧
    assembleW EXTENDED_ARG (some 300) = [EXTENDED_ARG, 1, EXTENDED_ARG, 44] ∧
    decodeMergeW [EXTENDED_ARG, 1, EXTENDED_ARG, 44] =
      .error "EXTENDED_ARG at the end of the code" := by
  refine ⟨by decide, ?_, ?_⟩
  · rw [assembleW, extBytes_300]
    rfl
  · rfl

/-- **C2 (amended)**: for every opcode that takes an argument *other than
the extension prefix itself*, operand 300 assembles to exactly the 4 bytes
`(EXTENDED_ARG, 1)(opcode, 44)` — extension pair first, most-significant
byte in the prefix — the computed size is 4, and decoding those 4 bytes
followed by the extension-merging post-pass yields the single instruction
with operand 300. -/
theorem claim_C2_extended_arg_roundtrip (op : Nat) (h90 : HAVE_ARGUMENT ≤ op)
    (h256 : op < 256) (hne : op ≠ EXTENDED_ARG) :
    assembleW op (some 300) = [EXTENDED_ARG, 1, op, 44] ∧
    instrSizeW (some 300) = 4 ∧
    decodeMergeW [EXTENDED_ARG, 1, op, 44] = .ok [⟨op, some 300, some 1⟩] := by
  have h90' : 90 ≤ op := h90
  refine ⟨by rw [assembleW, extBytes_300]; rfl, instrSizeW_300, ?_⟩
  have hraw : disasmW [] 1 0 [EXTENDED_ARG, 1, op, 44] =
      .ok [⟨EXTENDED_ARG, some 1, some 1⟩, ⟨op, some 44, some 1⟩] := by
    rw [disasmW]
    simp only [List.lookup, Option.getD]
    rw [disasmW]
    simp only [List.lookup, Option.getD]
    rw [disasmW]
    simp [HAVE_ARGUMENT, h90', EXTENDED_ARG]
  have hwf : instrWF ⟨op, some 300, some 1⟩ = true := by
    simp [instrWF, HAVE_ARGUMENT, h90', h256, ARG_MAX]
  rw [decodeMergeW, hraw]
  show mergeExt true Option.none _ = _
  norm_num [mergeExt, mkConcreteInstr, hne, hwf]
  simp [Bind.bind, Except.bind, hwf]

/-- Witness for C2 (amended): the `LOAD_CONST` opcode 100 of the spec's
scenario. -/
theorem claim_C2_extended_arg_roundtrip_witness :
    assembleW 100 (some 300) = [EXTENDED_ARG, 1, 100, 44] ∧
    instrSizeW (some 300) = 4 ∧
    decodeMergeW [EXTENDED_ARG, 1, 100, 44] = .ok [⟨100, some 300, some 1⟩] :=
  claim_C2_extended_arg_roundtrip 100 (by decide) (by decide) (by decide)

/-! ## Jump-layout lemmas -/

theorem computeJumps_single
    (instrs : List ConcreteInstr) (idx lab labIdx : Nat)
    (labels : List (Nat × Nat)) (i : ConcreteInstr) (tOff iOff : Nat)
    (hlab : labels.lookup lab = some labIdx)
    (htoff : (computeOffsets 0 instrs).get? labIdx = some tOff)
    (hinstr : instrs.get? idx = some i)
    (hioff : (computeOffsets 0 instrs).get? idx = some iOff)
    (hrel : i.opcode ∈ hasjrel) :
    ((tOff : Int) - ((iOff : Int) + (instrSizeW i.arg : Int)) < 0 →
      computeJumps ⟨instrs, [(idx, lab)], labels⟩ =
        .error "invalid instruction argument") ∧
    (∀ v : Nat, (tOff : Int) - ((iOff : Int) + (instrSizeW i.arg : Int)) = (v : Int) →
      v ≤ ARG_MAX →
      computeJumps ⟨instrs, [(idx, lab)], labels⟩ =
        .ok (⟨instrs.set idx { i with arg := some v }, [(idx, lab)], labels⟩,
             decide (instrSizeW (some v) ≠ instrSizeW i.arg))) := by
  constructor
  · intro hneg
    simp only [computeJumps, computeJumpsLoop, hlab, htoff, hinstr, hioff,
      if_pos hrel, Bind.bind, Except.bind]
    rw [setArg, if_neg (by omega)]
  · intro v hv hle
    simp only [computeJumps, computeJumpsLoop, hlab, htoff, hinstr, hioff,
      if_pos hrel, Bind.bind, Except.bind]
    rw [setArg, if_pos (by constructor <;> omega)]
    simp only [computeJumpsLoop, hv]
    simp [Int.toNat_ofNat]
    rfl

/-- **C7**: during jump resolution a relative jump's operand is the label's
byte offset minus the jump's own offset plus size; a nonnegative in-range
value is stored (recomputing the size), and a negative value makes the
conversion raise instead of storing or wrapping it. -/
theorem claim_C7_negative_relative_jump
    (instrs : List ConcreteInstr) (idx lab labIdx : Nat)
    (labels : List (Nat × Nat)) (i : ConcreteInstr) (tOff iOff : Nat)
    (hlab : labels.lookup lab = some labIdx)
    (htoff : (computeOffsets 0 instrs).get? labIdx = some tOff)
    (hinstr : instrs.get? idx = some i)
    (hioff : (computeOffsets 0 instrs).get? idx = some iOff)
    (hrel : i.opcode ∈ hasjrel) :
    ((tOff : Int) - ((iOff : Int) + (instrSizeW i.arg : Int)) < 0 →
      computeJumps ⟨instrs, [(idx, lab)], labels⟩ =
        .error "invalid instruction argument") ∧
    (∀ v : Nat, (tOff : Int) - ((iOff : Int) + (instrSizeW i.arg : Int)) = (v : Int) →
      v ≤ ARG_MAX →
      computeJumps ⟨instrs, [(idx, lab)], labels⟩ =
        .ok (⟨instrs.set idx { i with arg := some v }, [(idx, lab)], labels⟩,
             decide (instrSizeW (some v) ≠ instrSizeW i.arg))) :=
  computeJumps_single instrs idx lab labIdx labels i tOff iOff hlab htoff
    hinstr hioff hrel

/-- Witness for C7, concrete scenario 4: five 2-byte instructions then a
relative jump at offset 10 of size 2 targeting offset 8; the operand
resolves to `8 - (10 + 2) = -4 < 0` and the conversion raises. -/
theorem claim_C7_negative_relative_jump_witness :
    computeJumps negJumpState = .error "invalid instruction argument" := by
  have hs : instrSizeW (some 0) = 2 := by
    rw [instrSizeW_some, extIter_of_le (by norm_num)]
  have h := (claim_C7_negative_relative_jump
    negJumpState.instructions 5 0 4 negJumpState.labels
    ⟨110, some 0, some 1⟩ 8 10 rfl
    (by simp [negJumpState, computeOffsets, instrSizeW, hs])
    rfl
    (by simp [negJumpState, computeOffsets, instrSizeW, hs])
    (by decide)).1
  exact h (by rw [hs]; norm_num)

theorem setArg_error {i : ConcreteInstr} {v : Int} {s : String}
    (h : setArg i v = .error s) : s = "invalid instruction argument" := by
  rw [setArg] at h
  split at h
  · cases h
  · cases h; rfl

theorem computeJumpsLoop_error_ne
    {offsets : List Nat} {labels : List (Nat × Nat)}
    {instrs : List ConcreteInstr} {modified : Bool}
    {jumps : List (Nat × Nat)} {e : String}
    (h : computeJumpsLoop offsets labels instrs modified jumps = .error e) :
    e ≠ "compute_jumps() must not modify jumps at the second iteration" := by
  induction jumps generalizing instrs modified with
  | nil => simp [computeJumpsLoop] at h
  | cons j rest ih =>
    obtain ⟨index, label⟩ := j
    rw [computeJumpsLoop] at h
    cases hl : labels.lookup label with
    | none =>
      simp only [hl, Bind.bind, Except.bind] at h
      cases h; decide
    | some t =>
      simp only [hl, Bind.bind, Except.bind] at h
      cases ho : offsets.get? t with
      | none => simp only [ho, Except.bind] at h; cases h; decide
      | some tOff =>
        simp only [ho, Except.bind] at h
        cases hi : instrs.get? index with
        | none => simp only [hi, Except.bind] at h; cases h; decide
        | some instr =>
          simp only [hi, Except.bind] at h
          cases hio : offsets.get? index with
          | none => simp only [hio, Except.bind] at h; cases h; decide
          | some iOff =>
            simp only [hio, Except.bind] at h
            cases hsa : setArg instr (if instr.opcode ∈ hasjrel then
                (tOff : Int) - ((iOff : Int) + (instrSizeW instr.arg : Int))
              else (tOff : Int)) with
            | error er =>
              rw [hsa] at h
              simp only [Except.bind] at h
              cases h
              rw [setArg_error hsa]
              decide
            | ok i' =>
              rw [hsa] at h
              simp only [Except.bind] at h
              exact ih h

theorem computeJumps_error_ne {st : LayoutState} {e : String}
    (h : computeJumps st = .error e) :
    e ≠ "compute_jumps() must not modify jumps at the second iteration" := by
  rw [computeJumps] at h
  cases hl : computeJumpsLoop (computeOffsets 0 st.instructions) st.labels
      st.instructions false st.jumps with
  | ok p =>
    simp only [hl, Bind.bind, Except.bind] at h
    cases h
  | error e' =>
    simp only [hl, Bind.bind, Except.bind] at h
    cases h
    exact computeJumpsLoop_error_ne hl

/-- **C4**: the jump-layout fixed point performs at most two resolution
passes: the driver errors with the non-convergence message exactly when both
the first and the second pass report a size change; a stable first pass
returns its state, a stable second pass returns the second state, and every
successful run is reproduced by at most two iterations of the unbounded
reference iterator. -/
theorem claim_C4_two_pass_convergence (st : LayoutState) :
    (computeJumpsFix st =
        .error "compute_jumps() must not modify jumps at the second iteration" ↔
      ∃ st1 st2, computeJumps st = .ok (st1, true) ∧
        computeJumps st1 = .ok (st2, true)) ∧
    (∀ st', computeJumpsFix st = .ok st' →
      ∃ k, k ≤ 2 ∧ computeJumpsIter st k = .ok (st', false)) ∧
    (∀ st1, computeJumps st = .ok (st1, false) → computeJumpsFix st = .ok st1) ∧
    (∀ st1 st2, computeJumps st = .ok (st1, true) →
      computeJumps st1 = .ok (st2, false) → computeJumpsFix st = .ok st2) := by
  cases h1 : computeJumps st with
  | error e =>
    have hne := computeJumps_error_ne h1
    refine ⟨⟨fun hc => ?_, fun hex => ?_⟩, fun st' hfix => ?_, fun st1 hc => ?_,
      fun st1 st2 hc _ => ?_⟩
    · exfalso
      simp only [computeJumpsFix, h1, Bind.bind, Except.bind] at hc
      cases hc
      exact hne rfl
    · obtain ⟨st1, st2, hc, -⟩ := hex
      cases hc
    · exfalso
      simp only [computeJumpsFix, h1, Bind.bind, Except.bind] at hfix
      cases hfix
    · cases hc
    · cases hc
  | ok p =>
    obtain ⟨st1, m1⟩ := p
    cases m1 with
    | false =>
      have hfix : computeJumpsFix st = .ok st1 := by
        simp [computeJumpsFix, h1, Bind.bind, Except.bind, pure, Except.pure]
      refine ⟨⟨fun hc => ?_, fun hex => ?_⟩, fun st' h' => ?_, fun st1' hc => ?_,
        fun st1' st2' hc _ => ?_⟩
      · rw [hfix] at hc; cases hc
      · obtain ⟨st1', st2', hc, -⟩ := hex; cases hc
      · rw [hfix] at h'
        cases h'
        exact ⟨1, by omega,
          by simp [computeJumpsIter, h1, Bind.bind, Except.bind, pure, Except.pure]⟩
      · cases hc; exact hfix
      · cases hc
    | true =>
      cases h2 : computeJumps st1 with
      | error e =>
        have hne := computeJumps_error_ne h2
        have hfix : computeJumpsFix st = .error e := by
          simp [computeJumpsFix, h1, h2, Bind.bind, Except.bind]
        refine ⟨⟨fun hc => ?_, fun hex => ?_⟩, fun st' h' => ?_, fun st1' hc => ?_,
          fun st1' st2' hc hc2 => ?_⟩
        · rw [hfix] at hc; cases hc; exact absurd rfl hne
        · obtain ⟨st1', st2', hc, hc2⟩ := hex
          cases hc; rw [h2] at hc2; cases hc2
        · rw [hfix] at h'; cases h'
        · cases hc
        · cases hc; rw [h2] at hc2; cases hc2
      | ok q =>
        obtain ⟨st2, m2⟩ := q
        cases m2 with
        | false =>
          have hfix : computeJumpsFix st = .ok st2 := by
            simp [computeJumpsFix, h1, h2, Bind.bind, Except.bind, pure, Except.pure]
          refine ⟨⟨fun hc => ?_, fun hex => ?_⟩, fun st' h' => ?_, fun st1' hc => ?_,
            fun st1' st2' hc hc2 => ?_⟩
          · rw [hfix] at hc; cases hc
          · obtain ⟨st1', st2', hc, hc2⟩ := hex
            cases hc; rw [h2] at hc2; cases hc2
          · rw [hfix] at h'
            cases h'
            exact ⟨2, by omega,
              by simp [computeJumpsIter, h1, h2, Bind.bind, Except.bind, pure,
                Except.pure]⟩
          · cases hc
          · cases hc; rw [h2] at hc2; cases hc2; exact hfix
        | true =>
          have hfix : computeJumpsFix st =
              .error "compute_jumps() must not modify jumps at the second iteration" := by
            simp [computeJumpsFix, h1, h2, Bind.bind, Except.bind]
          refine ⟨⟨fun _ => ⟨st1, st2, rfl, h2⟩, fun _ => hfix⟩, fun st' h' => ?_,
            fun st1' hc => ?_, fun st1' st2' hc hc2 => ?_⟩
          · rw [hfix] at h'; cases h'
          · cases hc
          · cases hc; rw [h2] at hc2; cases hc2

theorem computeOffsets_replicate (i : ConcreteInstr) (s : Nat)
    (hs : instrSizeW i.arg = s) :
    ∀ (n off : Nat), computeOffsets off (List.replicate n i) =
      (List.range (n + 1)).map fun k => off + s * k := by
  intro n
  induction n with
  | zero =>
    intro off
    rw [show List.range 1 = [0] from rfl]
    simp [computeOffsets, List.replicate]
  | succ n ih =>
    intro off
    rw [List.replicate_succ, computeOffsets, hs, ih (off + s),
      show List.range (n + 1 + 1) = 0 :: (List.range (n + 1)).map Nat.succ from
        List.range_succ_eq_map (n + 1)]
    simp only [List.map_cons, List.map_map, List.cons.injEq]
    refine ⟨by omega, List.map_congr_left fun a _ => ?_⟩
    simp only [Function.comp, Nat.succ_eq_add_one]
    ring

theorem instrSizeW_big : instrSizeW (some 2147483647) = 8 := by
  rw [instrSizeW_some, extIter_of_gt (by norm_num),
    show (2147483647 : Nat) / 256 = 8388607 by norm_num,
    extIter_of_gt (by norm_num),
    show (8388607 : Nat) / 256 = 32767 by norm_num,
    extIter_of_gt (by norm_num),
    show (32767 : Nat) / 256 = 127 by norm_num,
    extIter_of_le (by norm_num)]

theorem instrSizeW_zero : instrSizeW (some 0) = 2 := by
  rw [instrSizeW_some, extIter_of_le (by norm_num)]

theorem instrSizeW_256 : instrSizeW (some 256) = 4 := by
  rw [instrSizeW_some, extIter_of_gt (by norm_num),
    show (256 : Nat) / 256 = 1 by norm_num, extIter_of_le (by norm_num)]

theorem growJump_offsets1 : computeOffsets 0 growJumpState.instructions =
    0 :: (List.range 33).map fun k => 2 + 8 * k := by
  show computeOffsets 0 (⟨110, some 0, some 1⟩ ::
    List.replicate 32 ⟨100, some 2147483647, some 1⟩) = _
  rw [computeOffsets]
  rw [show instrSizeW (⟨110, some 0, some 1⟩ : ConcreteInstr).arg = 2 from
    instrSizeW_zero]
  rw [computeOffsets_replicate ⟨100, some 2147483647, some 1⟩ 8 instrSizeW_big
    32 (0 + 2)]

theorem growJump_offsets2 : computeOffsets 0 growJumpStateResolved.instructions =
    0 :: (List.range 33).map fun k => 4 + 8 * k := by
  show computeOffsets 0 (⟨110, some 256, some 1⟩ ::
    List.replicate 32 ⟨100, some 2147483647, some 1⟩) = _
  rw [computeOffsets]
  rw [show instrSizeW (⟨110, some 256, some 1⟩ : ConcreteInstr).arg = 4 from
    instrSizeW_256]
  rw [computeOffsets_replicate ⟨100, some 2147483647, some 1⟩ 8 instrSizeW_big
    32 (0 + 4)]

theorem growJump_setArg1 : setArg ⟨110, some 0, some 1⟩
    (if (110 : Nat) ∈ hasjrel then
      (((258 : Nat) : Int)) - (((0 : Nat) : Int) + ((2 : Nat) : Int))
     else ((258 : Nat) : Int)) = .ok ⟨110, some 256, some 1⟩ := by
  rw [if_pos (by decide), setArg, if_pos (by constructor <;> norm_num [ARG_MAX])]
  norm_num
  decide

theorem growJump_setArg2 : setArg ⟨110, some 256, some 1⟩
    (if (110 : Nat) ∈ hasjrel then
      (((260 : Nat) : Int)) - (((0 : Nat) : Int) + ((4 : Nat) : Int))
     else ((260 : Nat) : Int)) = .ok ⟨110, some 256, some 1⟩ := by
  rw [if_pos (by decide), setArg, if_pos (by constructor <;> norm_num [ARG_MAX])]
  norm_num
  decide

theorem computeJumps_growJumpState_fst :
    computeJumps growJumpState = .ok (growJumpStateResolved, true) := by
  have heg1 : (computeOffsets 0 growJumpState.instructions).get? 33 =
      some 258 := by
    rw [growJump_offsets1]; decide
  have heg1z : (computeOffsets 0 growJumpState.instructions).get? 0 =
      some 0 := by
    rw [growJump_offsets1]
    rfl
  have h := (computeJumps_single growJumpState.instructions 0 7 33
      growJumpState.labels ⟨110, some 0, some 1⟩ 258 0 rfl heg1 rfl heg1z
      (by decide)).2 256 ?hv ?hle
  case hv =>
    rw [show (⟨110, some 0, some 1⟩ : ConcreteInstr).arg = some 0 from rfl,
      instrSizeW_zero]
    norm_num
  case hle => norm_num [ARG_MAX]
  rw [show (⟨110, some 0, some 1⟩ : ConcreteInstr).arg = some 0 from rfl,
    instrSizeW_256, instrSizeW_zero] at h
  exact h

theorem computeJumps_growJumpState_snd :
    computeJumps growJumpStateResolved = .ok (growJumpStateResolved, false) := by
  have heg2 : (computeOffsets 0 growJumpStateResolved.instructions).get? 33 =
      some 260 := by
    rw [growJump_offsets2]; decide
  have heg2z : (computeOffsets 0 growJumpStateResolved.instructions).get? 0 =
      some 0 := by
    rw [growJump_offsets2]
    rfl
  have h := (computeJumps_single growJumpStateResolved.instructions 0 7 33
      growJumpStateResolved.labels ⟨110, some 256, some 1⟩ 260 0 rfl heg2 rfl
      heg2z (by decide)).2 256 ?hv ?hle
  case hv =>
    rw [show (⟨110, some 256, some 1⟩ : ConcreteInstr).arg = some 256 from rfl,
      instrSizeW_256]
    norm_num
  case hle => norm_num [ARG_MAX]
  rw [show (⟨110, some 256, some 1⟩ : ConcreteInstr).arg = some 256 from rfl,
    instrSizeW_256] at h
  exact h

/-- Witness for C4: on `growJumpState` the first pass resolves the jump
operand to 256 and grows the instruction from 2 to 4 bytes (modified), the
second pass re-resolves to the same operand with no size change, and the
driver returns that state after exactly two passes. -/
theorem claim_C4_two_pass_convergence_witness :
    computeJumpsFix growJumpState = .ok growJumpStateResolved :=
  (claim_C4_two_pass_convergence growJumpState).2.2.2 _ _
    computeJumps_growJumpState_fst computeJumps_growJumpState_snd



/-! ## Round-trip: instruction-level assembly structure -/

end BytecodeSpec
